import Mathlib

/-!
Verification of the tolerant structured-output parser in
`src/format_llm_response.py`.

Strings from the Python source are modelled as lists of characters
(`Str`).  Decoded JSON string contents are modelled as lists of Unicode
code points (`List Nat`), because Python's `json` module can produce
lone surrogates from `\uXXXX` escapes, which are not valid Lean `Char`s.
Python exceptions are modelled as explicit error values: the parser's
result type `ParseResult` distinguishes a successful parse, a raised
error (strict mode), and the fallback mapping (non-strict mode).
-/

abbrev Str := List Char

/-- The characters stripped by Python's `str.strip()` and matched by the
regex class `\s` (ASCII range, which is all that the claims exercise). -/
def isPySpace (c : Char) : Bool :=
  c == ' ' || c == '\t' || c == '\n' || c == '\r' || c == '\x0b' || c == '\x0c'

/-- JSON whitespace as accepted by Python's `json.loads` (strictly the
four characters of the JSON grammar, not Python's `\s`). -/
def isJsonWs (c : Char) : Bool :=
  c == ' ' || c == '\t' || c == '\n' || c == '\r'

def skipWs (l : Str) : Str := l.dropWhile isJsonWs

/-- JSON values as produced by Python's `json.loads`.  Numbers keep
their source lexeme (Python maps the lexeme to `int`/`float`; no claim
depends on numeric evaluation).  Objects are insertion-ordered key/value
lists built with dict semantics (`mkObj`). -/
inductive Json where
  | null : Json
  | bool (b : Bool) : Json
  | num (lexeme : Str) : Json
  | str (cps : List Nat) : Json
  | arr (items : List Json) : Json
  | obj (fields : List (List Nat × Json)) : Json

/-- Python `dict` insertion: a repeated key keeps its first position but
takes the latest value. -/
def insertKey (fields : List (List Nat × Json)) (k : List Nat) (v : Json) :
    List (List Nat × Json) :=
  match fields with
  | [] => [(k, v)]
  | (k', v') :: rest =>
    if k' = k then (k', v) :: rest else (k', v') :: insertKey rest k v

def mkObj (pairs : List (List Nat × Json)) : List (List Nat × Json) :=
  pairs.foldl (fun acc p => insertKey acc p.1 p.2) []

def hexVal (c : Char) : Option Nat :=
  if '0' ≤ c ∧ c ≤ '9' then some (c.toNat - 48)
  else if 'a' ≤ c ∧ c ≤ 'f' then some (c.toNat - 87)
  else if 'A' ≤ c ∧ c ≤ 'F' then some (c.toNat - 55)
  else none

def parseHex4 : Str → Option (Nat × Str)
  | a :: b :: c :: d :: rest =>
    match hexVal a, hexVal b, hexVal c, hexVal d with
    | some x, some y, some z, some w => some (4096 * x + 256 * y + 16 * z + w, rest)
    | _, _, _, _ => none
  | _ => none

/-- The backslash-escape table of Python's `json` scanner. -/
def escChar (c : Char) : Option Nat :=
  if c == '"' then some 34
  else if c == '\\' then some 92
  else if c == '/' then some 47
  else if c == 'b' then some 8
  else if c == 'f' then some 12
  else if c == 'n' then some 10
  else if c == 'r' then some 13
  else if c == 't' then some 9
  else none

/-- Python `json` string scanning, entered just after the opening quote.
Returns the decoded code points and the remainder after the closing
quote.  Control characters below `0x20` are rejected (the decoder's
default `strict=True`), unknown escapes are rejected, `\uXXXX` escapes
decode four hex digits, and a high surrogate immediately followed by a
`\uXXXX` low surrogate is combined; otherwise surrogates are kept lone. -/
def scanString : Nat → Str → Option (List Nat × Str)
  | 0, _ => none
  | _ + 1, [] => none
  | f + 1, c :: rest =>
    if c == '"' then some ([], rest)
    else if c == '\\' then
      match rest with
      | [] => none
      | e :: t =>
        if e == 'u' then
          match parseHex4 t with
          | none => none
          | some (n, t1) =>
            if 0xd800 ≤ n ∧ n ≤ 0xdbff then
              match t1 with
              | '\\' :: 'u' :: t2 =>
                match parseHex4 t2 with
                | some (m, t3) =>
                  if 0xdc00 ≤ m ∧ m ≤ 0xdfff then
                    (scanString f t3).map
                      (fun p => ((0x10000 + (n - 0xd800) * 0x400 + (m - 0xdc00)) :: p.1, p.2))
                  else (scanString f t1).map (fun p => (n :: p.1, p.2))
                | none => (scanString f t1).map (fun p => (n :: p.1, p.2))
              | _ => (scanString f t1).map (fun p => (n :: p.1, p.2))
            else (scanString f t1).map (fun p => (n :: p.1, p.2))
        else
          match escChar e with
          | some k => (scanString f t).map (fun p => (k :: p.1, p.2))
          | none => none
    else if c.toNat < 0x20 then none
    else (scanString f rest).map (fun p => (c.toNat :: p.1, p.2))

def isDigit19 (c : Char) : Bool := '1' ≤ c && c ≤ '9'

/-- Fraction and exponent parts of Python `json`'s `NUMBER_RE`
(`(\.\d+)?([eE][-+]?\d+)?`): each group is taken greedily and skipped
when it cannot match.  Returns the consumed lexeme part and remainder. -/
def numFracExp (l : Str) : Str × Str :=
  let fr : Str × Str :=
    match l with
    | '.' :: t =>
      let ds := t.takeWhile Char.isDigit
      if ds.isEmpty then ([], l) else ('.' :: ds, t.drop ds.length)
    | _ => ([], l)
  let l1 := fr.2
  let ex : Str × Str :=
    match l1 with
    | e :: t =>
      if e == 'e' || e == 'E' then
        let sg : Str × Str :=
          match t with
          | s :: t' => if s == '+' || s == '-' then ([s], t') else ([], t)
          | [] => ([], t)
        let ds := sg.2.takeWhile Char.isDigit
        if ds.isEmpty then ([], l1) else (e :: (sg.1 ++ ds), sg.2.drop ds.length)
      else ([], l1)
    | [] => ([], l1)
  (fr.1 ++ ex.1, ex.2)

/-- Number lexeme recognition, the anchored match of Python `json`'s
`NUMBER_RE`: `(-?(?:0|[1-9]\d*))(\.\d+)?([eE][-+]?\d+)?`. -/
def parseNumLex (l : Str) : Option (Str × Str) :=
  let sn : Str × Str :=
    match l with
    | '-' :: t => (['-'], t)
    | _ => ([], l)
  match sn.2 with
  | '0' :: t =>
    let fe := numFracExp t
    some (sn.1 ++ '0' :: fe.1, fe.2)
  | c :: t =>
    if isDigit19 c then
      let ds := t.takeWhile Char.isDigit
      let fe := numFracExp (t.drop ds.length)
      some (sn.1 ++ c :: (ds ++ fe.1), fe.2)
    else none
  | [] => none

mutual

/-- One JSON value, following Python `json`'s scanner: strings, objects,
arrays, the keywords `null`/`true`/`false`, numbers, and the constants
`NaN`, `Infinity`, `-Infinity`.  Fuel only bounds recursion depth; the
caller supplies more fuel than any input can consume. -/
def parseValue : Nat → Str → Option (Json × Str)
  | 0, _ => none
  | f + 1, l =>
    match l with
    | '"' :: rest => (scanString f rest).map (fun p => (Json.str p.1, p.2))
    | '\x7b' :: rest =>
      match skipWs rest with
      | '\x7d' :: r => some (Json.obj [], r)
      | l1 => (parseObjItems f l1).map (fun p => (Json.obj (mkObj p.1), p.2))
    | '[' :: rest =>
      match skipWs rest with
      | ']' :: r => some (Json.arr [], r)
      | l1 => (parseArrItems f l1).map (fun p => (Json.arr p.1, p.2))
    | _ =>
      if ("null".toList).isPrefixOf l then some (Json.null, l.drop 4)
      else if ("true".toList).isPrefixOf l then some (Json.bool true, l.drop 4)
      else if ("false".toList).isPrefixOf l then some (Json.bool false, l.drop 5)
      else
        match parseNumLex l with
        | some (lex, r) => some (Json.num lex, r)
        | none =>
          if ("NaN".toList).isPrefixOf l then some (Json.num ("NaN".toList), l.drop 3)
          else if ("Infinity".toList).isPrefixOf l then
            some (Json.num ("Infinity".toList), l.drop 8)
          else if ("-Infinity".toList).isPrefixOf l then
            some (Json.num ("-Infinity".toList), l.drop 9)
          else none

/-- Object members starting at an (already whitespace-skipped) expected
key position; a member list ends at `}` with no trailing comma allowed. -/
def parseObjItems : Nat → Str → Option (List (List Nat × Json) × Str)
  | 0, _ => none
  | f + 1, l =>
    match l with
    | '"' :: rest =>
      match scanString f rest with
      | none => none
      | some (k, r1) =>
        match skipWs r1 with
        | ':' :: r2 =>
          match parseValue f (skipWs r2) with
          | none => none
          | some (v, r3) =>
            match skipWs r3 with
            | ',' :: r4 => (parseObjItems f (skipWs r4)).map (fun p => ((k, v) :: p.1, p.2))
            | '\x7d' :: r4 => some ([(k, v)], r4)
            | _ => none
        | _ => none
    | _ => none

/-- Array items starting at an (already whitespace-skipped) expected
value position; an item list ends at `]` with no trailing comma allowed. -/
def parseArrItems : Nat → Str → Option (List Json × Str)
  | 0, _ => none
  | f + 1, l =>
    match parseValue f l with
    | none => none
    | some (v, r1) =>
      match skipWs r1 with
      | ',' :: r2 => (parseArrItems f (skipWs r2)).map (fun p => (v :: p.1, p.2))
      | ']' :: r2 => some ([v], r2)
      | _ => none

end

/-- Model of Python's `json.loads`: skip leading JSON whitespace, parse
one value, and require that only JSON whitespace remains.  `none` models
a raised `json.JSONDecodeError`. -/
def jsonLoads (l : Str) : Option Json :=
  match parseValue (4 * l.length + 4) (skipWs l) with
  | some (v, rest) => if skipWs rest = [] then some v else none
  | none => none

/-- Error values for the exceptions the source can raise and catch:
`PErr.noBlock` is `extract_json_block`'s
`ValueError("No JSON object or array found in LLM response.")`, and
`PErr.decodeError` abstracts a `json.JSONDecodeError` (no claim depends
on the decode error's message text). -/
inductive PErr where
  | decodeError : PErr
  | noBlock : PErr
deriving DecidableEq

/-- `str.find`: index of the first occurrence of a character, with the
Python sentinel `-1` modelled as `none`. -/
def findChar (c : Char) : Str → Option Nat
  | [] => none
  | x :: xs => if x = c then some 0 else (findChar c xs).map (· + 1)

/-- `str.rfind`: index of the last occurrence of a character. -/
def rfindChar (c : Char) (l : Str) : Option Nat :=
  (findChar c l.reverse).map (fun k => l.length - 1 - k)

/-- Python slice `l[s:e]` for nonnegative bounds: clamped, and empty
when `e ≤ s` (truncated subtraction gives exactly this). -/
def pySlice (s e : Nat) (l : Str) : Str := (l.drop s).take (e - s)

def lstripWs (l : Str) : Str := l.dropWhile isPySpace

def rstripWs (l : Str) : Str := (l.reverse.dropWhile isPySpace).reverse

/-- Python's `str.strip()`. -/
def pyStrip (l : Str) : Str := rstripWs (lstripWs l)

def dropRight3 (l : Str) : Str := l.take (l.length - 3)

/-- `remove_markdown_fences` from the source: strip, remove a leading
fence via `re.sub(r'^```(?:json)?\s*', '', text)`, remove a trailing
fence via `re.sub(r'\s*```$', '', text)`, strip again.  Because the
text is already stripped, the anchored prefix regex removes exactly a
leading triple backtick, an optional `json` tag and following
whitespace, and the suffix regex removes exactly a trailing triple
backtick plus the whitespace run before it. -/
def remove_markdown_fences (text : Str) : Str :=
  let t0 := pyStrip text
  let t1 :=
    if ("```json".toList).isPrefixOf t0 then lstripWs (t0.drop 7)
    else if ("```".toList).isPrefixOf t0 then lstripWs (t0.drop 3)
    else t0
  let t2 := if ("```".toList).isSuffixOf t1 then rstripWs (dropRight3 t1) else t1
  pyStrip t2

/-- The array branch and failure case of `extract_json_block`. -/
def arrBranch (text : Str) : Except PErr Str :=
  match findChar '[' text, rfindChar ']' text with
  | some sa, some ea => Except.ok (pySlice sa (ea + 1) text)
  | _, _ => Except.error PErr.noBlock

/-- `extract_json_block` from the source: prefer the object span
(first `{` to last `}`) when both braces occur and no `[` occurs
strictly before the first `{`; otherwise take the array span (first `[`
to last `]`); otherwise raise `ValueError`. -/
def extract_json_block (text : Str) : Except PErr Str :=
  match findChar '\x7b' text, rfindChar '\x7d' text with
  | some so, some eo =>
    if (match findChar '[' text with
        | none => true
        | some sa => so < sa) then
      Except.ok (pySlice so (eo + 1) text)
    else arrBranch text
  | _, _ => arrBranch text

/-- The character scan of `fix_unescaped_quotes`, carrying the
`in_string` and `escape_next` booleans.  On a quote inside a string the
source takes the next nine characters, left-strips them, and treats the
quote as closing exactly when the first remaining character is `,`, `}`
or `]`, or when the quote is the last character of the whole text
(current remainder empty); otherwise it emits a backslash-escaped quote
and stays inside the string. -/
def closingLookahead (rest : Str) : Bool :=
  match (rest.take 9).dropWhile isPySpace with
  | x :: _ => x == ',' || x == '\x7d' || x == ']'
  | [] => false

def fixQuotesGo : Str → Bool → Bool → Str
  | [], _, _ => []
  | c :: rest, inStr, escNext =>
    if escNext then c :: fixQuotesGo rest inStr false
    else if c = '\\' then c :: fixQuotesGo rest inStr true
    else if c = '"' then
      if inStr = false then '"' :: fixQuotesGo rest true false
      else
        if closingLookahead rest || rest.isEmpty then
          '"' :: fixQuotesGo rest false false
        else '\\' :: '"' :: fixQuotesGo rest true false
    else c :: fixQuotesGo rest inStr false

def fix_unescaped_quotes (text : Str) : Str := fixQuotesGo text false false

mutual

/-- `re.sub(r'//[^\n]*', '', text)`: on `//`, everything up to (not
including) the next newline is dropped and scanning resumes there. -/
def removeLineComments : Str → Str
  | [] => []
  | '/' :: '/' :: rest2 => lineCommentSkip rest2
  | c :: rest => c :: removeLineComments rest

def lineCommentSkip : Str → Str
  | [] => []
  | '\n' :: rest => '\n' :: removeLineComments rest
  | _ :: rest => lineCommentSkip rest

end

/-- Detector for an occurrence of `*/`, the closing delimiter required
for the block-comment regex to match at a given `/*`. -/
def hasStarSlash : Str → Bool
  | '*' :: '/' :: _ => true
  | _ :: rest => hasStarSlash rest
  | [] => false

mutual

/-- `re.sub(r'/\*.*?\*/', '', text, flags=re.DOTALL)`: on `/*`, the text
through the nearest following `*/` is dropped; a `/*` with no closing
`*/` anywhere after it is left in place, and the rest of the text is
scanned unchanged (with no `*/` left, no later `/*` can match either,
so emitting the remainder through the ordinary scan is faithful). -/
def removeBlockComments : Str → Str
  | [] => []
  | '/' :: '*' :: rest2 =>
    if hasStarSlash rest2 then blockCommentSkip rest2
    else '/' :: '*' :: removeBlockComments rest2
  | c :: rest => c :: removeBlockComments rest

/-- Scan past the body of a block comment up to and over the nearest
`*/`; only entered when a `*/` exists in the remainder. -/
def blockCommentSkip : Str → Str
  | '*' :: '/' :: rest => removeBlockComments rest
  | _ :: rest => blockCommentSkip rest
  | [] => []

end

mutual

/-- `re.sub(r',\s*([}\]])', r'\1', text)`: a comma followed by optional
whitespace and a closing `}` or `]` is replaced by the bracket alone;
scanning resumes after the bracket, and a comma that does not match is
kept and scanning resumes at the next character.  A comma hands over to
`commaPending`, which walks the whitespace run after it. -/
def removeTrailingCommas : Str → Str
  | [] => []
  | c :: rest =>
    if c = ',' then commaPending [] rest else c :: removeTrailingCommas rest

/-- Scan after a pending comma, accumulating the (reversed) whitespace
run.  A closing `}`/`]` ends the match: the comma and whitespace are
dropped and the bracket kept.  Anything else is a failed match: the
comma and whitespace are re-emitted unchanged (no match can start inside
the whitespace run, since a match starts with a comma), and scanning
resumes at the offending character. -/
def commaPending (acc : Str) : Str → Str
  | [] => ',' :: acc.reverse
  | b :: t =>
    if isPySpace b then commaPending (b :: acc) t
    else if b = '\x7d' ∨ b = ']' then b :: removeTrailingCommas t
    else if b = ',' then ',' :: (acc.reverse ++ commaPending [] t)
    else ',' :: (acc.reverse ++ (b :: removeTrailingCommas t))

end

/-- Word characters for the regex `\b` boundary (`\w`, ASCII range). -/
def isWordCh (c : Char) : Bool := c.isAlphanum || c == '_'

/-- `\b` before a pattern that starts with a word character: the
previous character (if any) must not be a word character. -/
def boundaryL : Option Char → Bool
  | none => true
  | some c => !isWordCh c

/-- `\b` after a pattern that ends with a word character: the next
character (if any) must not be a word character. -/
def boundaryR : Str → Bool
  | [] => true
  | c :: _ => !isWordCh c

/-- `re.sub(r'\bTrue\b', 'true', text)`, scanning with the previous
character tracked for the left boundary. -/
def subTrue : Option Char → Str → Str
  | prev, 'T' :: 'r' :: 'u' :: 'e' :: rest2 =>
    if boundaryL prev && boundaryR rest2 then
      't' :: 'r' :: 'u' :: 'e' :: subTrue (some 'e') rest2
    else 'T' :: 'r' :: 'u' :: 'e' :: subTrue (some 'e') rest2
  | _, c :: rest => c :: subTrue (some c) rest
  | _, [] => []

/-- `re.sub(r'\bFalse\b', 'false', text)`. -/
def subFalse : Option Char → Str → Str
  | prev, 'F' :: 'a' :: 'l' :: 's' :: 'e' :: rest2 =>
    if boundaryL prev && boundaryR rest2 then
      'f' :: 'a' :: 'l' :: 's' :: 'e' :: subFalse (some 'e') rest2
    else 'F' :: 'a' :: 'l' :: 's' :: 'e' :: subFalse (some 'e') rest2
  | _, c :: rest => c :: subFalse (some c) rest
  | _, [] => []

/-- `re.sub(r'\bNone\b', 'null', text)`. -/
def subNone : Option Char → Str → Str
  | prev, 'N' :: 'o' :: 'n' :: 'e' :: rest2 =>
    if boundaryL prev && boundaryR rest2 then
      'n' :: 'u' :: 'l' :: 'l' :: subNone (some 'e') rest2
    else 'N' :: 'o' :: 'n' :: 'e' :: subNone (some 'e') rest2
  | _, c :: rest => c :: subNone (some c) rest
  | _, [] => []

/-- `aggressive_clean` from the source: line comments, then block
comments, then trailing commas, then the literal rewrites `True`,
`False`, `None`, in that order. -/
def aggressive_clean (text : Str) : Str :=
  subNone none (subFalse none (subTrue none
    (removeTrailingCommas (removeBlockComments (removeLineComments text)))))

/-- The observable outcome of one `parse_llm_response` call: a parsed
JSON value, a raised error (strict mode; the actual `ValueError` message
interpolates the carried error and cleaned attempt), or the non-strict
fallback dict with keys `raw_text`, `error`, `clean_attempt`.  The three
outcomes are mutually exclusive by construction. -/
inductive ParseResult where
  | ok (v : Json)
  | raised (err : PErr) (cleanAttempt : Str)
  | fallback (rawText : Str) (err : PErr) (cleanAttempt : Str)

/-- `parse_llm_response` from the source.  The four strategies run in
order with the first success returned.  Strategies 2—4 each recompute
the fence removal and extraction (all stages are pure, so the shared
prefix is computed once here); when extraction raises, strategies 3 and
4 fail with the same `ValueError`, the last assigned `clean_str` is the
fence-stripped text, and that pair is reported.  When extraction
succeeds but every parse fails, the reported `clean_str` is strategy
4's fully cleaned text and the error is the final decode error. -/
def parse_llm_response (llm_response : Str) (strict : Bool) : ParseResult :=
  match jsonLoads llm_response with
  | some v => ParseResult.ok v
  | none =>
    let a := remove_markdown_fences llm_response
    match extract_json_block a with
    | Except.error e =>
      if strict then ParseResult.raised e a
      else ParseResult.fallback llm_response e a
    | Except.ok b =>
      match jsonLoads b with
      | some v => ParseResult.ok v
      | none =>
        let c := aggressive_clean b
        match jsonLoads c with
        | some v => ParseResult.ok v
        | none =>
          let d := fix_unescaped_quotes c
          match jsonLoads d with
          | some v => ParseResult.ok v
          | none =>
            if strict then ParseResult.raised PErr.decodeError d
            else ParseResult.fallback llm_response PErr.decodeError d

/-- A call of `parse_llm_response` with the `strict` argument omitted:
the Python signature declares `strict: bool = True`, so such a call runs
with `strict = True`. -/
def parse_llm_response_default (llm_response : Str) : ParseResult :=
  parse_llm_response llm_response true

/-- Detector for an occurrence of `//` (the line-comment regex can
match). -/
def hasDblSlash : Str → Bool
  | '/' :: '/' :: _ => true
  | _ :: rest => hasDblSlash rest
  | [] => false

/-- Detector for an occurrence of `/*` (conservative enabling condition
for the block-comment regex). -/
def hasSlashStar : Str → Bool
  | '/' :: '*' :: _ => true
  | _ :: rest => hasSlashStar rest
  | [] => false

mutual

/-- Detector for a match of the trailing-comma regex, mirroring the
scan of `removeTrailingCommas`. -/
def hasCommaTrigger : Str → Bool
  | [] => false
  | c :: rest =>
    if c = ',' then commaTriggerPending rest else hasCommaTrigger rest

def commaTriggerPending : Str → Bool
  | [] => false
  | b :: t =>
    if isPySpace b then commaTriggerPending t
    else if b = '\x7d' ∨ b = ']' then true
    else if b = ',' then commaTriggerPending t
    else hasCommaTrigger t

end

/-- Detector for a match of `\bTrue\b`, mirroring the scan of
`subTrue`. -/
def hasTrueTok : Option Char → Str → Bool
  | prev, 'T' :: 'r' :: 'u' :: 'e' :: rest2 =>
    (boundaryL prev && boundaryR rest2) || hasTrueTok (some 'e') rest2
  | _, c :: rest => hasTrueTok (some c) rest
  | _, [] => false

/-- Detector for a match of `\bFalse\b`, mirroring the scan of
`subFalse`. -/
def hasFalseTok : Option Char → Str → Bool
  | prev, 'F' :: 'a' :: 'l' :: 's' :: 'e' :: rest2 =>
    (boundaryL prev && boundaryR rest2) || hasFalseTok (some 'e') rest2
  | _, c :: rest => hasFalseTok (some c) rest
  | _, [] => false

/-- Detector for a match of `\bNone\b`, mirroring the scan of
`subNone`. -/
def hasNoneTok : Option Char → Str → Bool
  | prev, 'N' :: 'o' :: 'n' :: 'e' :: rest2 =>
    (boundaryL prev && boundaryR rest2) || hasNoneTok (some 'e') rest2
  | _, c :: rest => hasNoneTok (some c) rest
  | _, [] => false

/-- A string on which some pass of `aggressive_clean` can still act:
it contains `//` or `/*`, a trailing-comma match, or a
token-boundary occurrence of `True`, `False` or `None`. -/
def cleanablePattern (l : Str) : Bool :=
  hasDblSlash l || hasSlashStar l || hasCommaTrigger l ||
  hasTrueTok none l || hasFalseTok none l || hasNoneTok none l

theorem parse_of_loads {s : Str} {v : Json} (strict : Bool)
    (h : jsonLoads s = some v) :
    parse_llm_response s strict = ParseResult.ok v := by
  unfold parse_llm_response
  rw [h]

/-- C1: for every string `s` that is valid JSON (i.e. `json.loads`
succeeds on it), `parse_llm_response s strict` succeeds at strategy 1
and returns exactly the `json.loads` value, for both strict modes. -/
theorem claim_C1 (s : Str) (strict : Bool) (v : Json)
    (h : jsonLoads s = some v) :
    parse_llm_response s strict = ParseResult.ok v :=
  parse_of_loads strict h

theorem claim_C1_witness :
    jsonLoads ("\x7b\"a\": 1\x7d".toList) = some (Json.obj [([97], Json.num ['1'])]) ∧
    parse_llm_response ("\x7b\"a\": 1\x7d".toList) true =
      ParseResult.ok (Json.obj [([97], Json.num ['1'])]) :=
  ⟨rfl, claim_C1 _ true _ rfl⟩

/-- C2 counterexample: the input `42` contains neither `{` nor `[`, yet
strategy 1 succeeds (top-level scalars are valid JSON), so the call
returns a parsed value instead of raising in strict mode. -/
theorem claim_C2_counterexample :
    '\x7b' ∉ ("42".toList) ∧ '[' ∉ ("42".toList) ∧
    parse_llm_response ("42".toList) true = ParseResult.ok (Json.num ['4', '2']) :=
  ⟨by decide, by decide, rfl⟩

/-- C3: the code does not satisfy the claim.  On the spec's own
round-trip input the quote-repair pass escapes the key's closing quote
(its lookahead sees `:`, which is not in `,}]`), producing a string
that still fails to parse, so all four strategies fail: strict mode
raises and non-strict mode returns the fallback record.  This
contradicts `fix_unescaped_quotes`'s own docstring, which presents
exactly this shape (`"command": "grep "ERROR""`) as the handled case. -/
theorem claim_C3_bug :
    fix_unescaped_quotes ("\x7b\"a\": \"say \"hi\" now\"\x7d".toList) =
      ("\x7b\"a\\\": \\\"say \\\"hi\\\" now\"\x7d".toList) ∧
    parse_llm_response ("\x7b\"a\": \"say \"hi\" now\"\x7d".toList) true =
      ParseResult.raised PErr.decodeError
        ("\x7b\"a\\\": \\\"say \\\"hi\\\" now\"\x7d".toList) ∧
    parse_llm_response ("\x7b\"a\": \"say \"hi\" now\"\x7d".toList) false =
      ParseResult.fallback ("\x7b\"a\": \"say \"hi\" now\"\x7d".toList) PErr.decodeError
        ("\x7b\"a\\\": \\\"say \\\"hi\\\" now\"\x7d".toList) :=
  ⟨rfl, rfl, rfl⟩

/-- C4 counterexample: on the claim's own input the string value
`"True"` is rewritten to `"true"` by strategy 3 (`\bTrue\b` has word
boundaries at the surrounding quotes and is not string-aware), so key
`a` maps to the string `true`, not `True` (code points 116 vs 84). -/
theorem claim_C4_counterexample :
    parse_llm_response ("\x7b\"a\": \"True\", \"b\": 2,\x7d".toList) true =
      ParseResult.ok (Json.obj
        [([97], Json.str [116, 114, 117, 101]), ([98], Json.num ['2'])]) ∧
    ([116, 114, 117, 101] : List Nat) ≠ [84, 114, 117, 101] :=
  ⟨rfl, by decide⟩

/-- C4 amended: the `True`/`False`/`None` rewriting matches whole
tokens only — an occurrence embedded in a longer identifier such as
`TrueX` is preserved — but it is not string-aware: a string value
`"True"` (word boundaries at the quotes) is rewritten, so the claim's
input parses with key `a` bound to the string `true`. -/
theorem claim_C4 (strict : Bool) :
    parse_llm_response ("\x7b\"a\": \"True\", \"b\": 2,\x7d".toList) strict =
      ParseResult.ok (Json.obj
        [([97], Json.str [116, 114, 117, 101]), ([98], Json.num ['2'])]) ∧
    parse_llm_response ("\x7b\"a\": \"TrueX\", \"b\": 2,\x7d".toList) strict =
      ParseResult.ok (Json.obj
        [([97], Json.str [84, 114, 117, 101, 88]), ([98], Json.num ['2'])]) := by
  cases strict <;> exact ⟨rfl, rfl⟩

/-- C5 counterexample: `42` is valid JSON, but its fenced wrapping
fails every strategy (after fence removal the text `42` contains no
`{`/`[` delimiter, so extraction raises), so wrapping changes the
result. -/
theorem claim_C5_counterexample :
    jsonLoads ("42".toList) = some (Json.num ['4', '2']) ∧
    parse_llm_response ("42".toList) false = ParseResult.ok (Json.num ['4', '2']) ∧
    parse_llm_response ("```json\n42\n```".toList) false =
      ParseResult.fallback ("```json\n42\n```".toList) PErr.noBlock ("42".toList) ∧
    ParseResult.fallback ("```json\n42\n```".toList) PErr.noBlock ("42".toList) ≠
      ParseResult.ok (Json.num ['4', '2']) :=
  ⟨rfl, rfl, rfl, fun h => ParseResult.noConfusion h⟩

/-- C7 counterexample: stacked trailing commas are removed one layer
per pass, so `aggressive_clean` is not idempotent on `,,}`. -/
theorem claim_C7_counterexample :
    aggressive_clean (aggressive_clean [',', ',', '\x7d']) ≠
      aggressive_clean [',', ',', '\x7d'] := by
  decide

/-- C10: a call that omits `strict` behaves exactly as `strict = true`
(the Python default), and in particular raises on total failure
instead of returning a fallback record. -/
theorem claim_C10 :
    (∀ raw : Str, parse_llm_response_default raw = parse_llm_response raw true) ∧
    parse_llm_response_default ("Sorry, I cannot help.".toList) =
      ParseResult.raised PErr.noBlock ("Sorry, I cannot help.".toList) :=
  ⟨fun _ => rfl, rfl⟩

theorem findChar_eq_none {c : Char} : ∀ {l : Str}, c ∉ l → findChar c l = none := by
  intro l h
  induction l with
  | nil => rfl
  | cons x xs ih =>
    rw [List.mem_cons, not_or] at h
    simp only [findChar, if_neg (fun hh : x = c => h.1 hh.symm), ih h.2, Option.map_none']

theorem rfindChar_eq_none {c : Char} {l : Str} (h : c ∉ l) : rfindChar c l = none := by
  unfold rfindChar
  rw [findChar_eq_none (by simpa using h)]
  rfl

theorem findChar_getElem {c : Char} : ∀ {l : Str} {i : Nat},
    findChar c l = some i → l[i]? = some c := by
  intro l
  induction l with
  | nil => intro i h; exact absurd h (by simp [findChar])
  | cons x xs ih =>
    intro i h
    simp only [findChar] at h
    by_cases hx : x = c
    · rw [if_pos hx] at h
      cases h
      simpa using hx
    · rw [if_neg hx] at h
      rcases Option.map_eq_some'.mp h with ⟨j, hj, hij⟩
      subst hij
      simpa using ih hj

theorem mem_lstripWs {c : Char} {l : Str} (h : c ∈ lstripWs l) : c ∈ l :=
  List.dropWhile_subset _ h

theorem mem_rstripWs {c : Char} {l : Str} (h : c ∈ rstripWs l) : c ∈ l := by
  unfold rstripWs at h
  rw [List.mem_reverse] at h
  have h2 := List.dropWhile_subset (l := l.reverse) isPySpace h
  simpa using h2

theorem mem_pyStrip {c : Char} {l : Str} (h : c ∈ pyStrip l) : c ∈ l :=
  mem_lstripWs (mem_rstripWs h)

theorem mem_ite_str {c : Char} {l : Str} {P : Prop} [Decidable P] {a b : Str}
    (ha : c ∈ a → c ∈ l) (hb : c ∈ b → c ∈ l) (h : c ∈ (if P then a else b)) :
    c ∈ l := by
  split at h
  · exact ha h
  · exact hb h

theorem mem_remove_markdown_fences {c : Char} {l : Str}
    (h : c ∈ remove_markdown_fences l) : c ∈ l := by
  simp only [remove_markdown_fences] at h
  refine mem_ite_str ?_ ?_ (mem_pyStrip h) <;> intro hc
  · have hc2 := mem_rstripWs hc
    simp only [dropRight3] at hc2
    refine mem_ite_str ?_ (mem_ite_str ?_ ?_) (List.mem_of_mem_take hc2) <;> intro hx
    · exact mem_pyStrip (List.mem_of_mem_drop (mem_lstripWs hx))
    · exact mem_pyStrip (List.mem_of_mem_drop (mem_lstripWs hx))
    · exact mem_pyStrip hx
  · refine mem_ite_str ?_ (mem_ite_str ?_ ?_) hc <;> intro hx
    · exact mem_pyStrip (List.mem_of_mem_drop (mem_lstripWs hx))
    · exact mem_pyStrip (List.mem_of_mem_drop (mem_lstripWs hx))
    · exact mem_pyStrip hx

theorem extract_none_of_no_delims {t : Str} (h1 : '\x7b' ∉ t) (h2 : '[' ∉ t) :
    extract_json_block t = Except.error PErr.noBlock := by
  unfold extract_json_block arrBranch
  rw [findChar_eq_none h1, findChar_eq_none h2]

/-- C2 amended: for every input containing neither `{` nor `[` that is
not itself valid JSON (strategy 1 must also fail: the original claim is
false for bare scalars such as `42`), all four strategies fail; strict
mode raises carrying the extraction error and the fence-stripped text
(the last assigned cleaned string), and non-strict mode returns the
fallback record with the original raw text; the two outcomes are
mutually exclusive constructors of `ParseResult`. -/
theorem claim_C2 (s : Str) (h : jsonLoads s = none)
    (h1 : '\x7b' ∉ s) (h2 : '[' ∉ s) :
    parse_llm_response s true =
      ParseResult.raised PErr.noBlock (remove_markdown_fences s) ∧
    parse_llm_response s false =
      ParseResult.fallback s PErr.noBlock (remove_markdown_fences s) := by
  have e := extract_none_of_no_delims
    (fun hc => h1 (mem_remove_markdown_fences hc))
    (fun hc => h2 (mem_remove_markdown_fences hc))
  constructor <;> simp [parse_llm_response, h, e]

theorem claim_C2_witness :
    jsonLoads ("no json here.".toList) = none ∧
    '\x7b' ∉ ("no json here.".toList) ∧
    parse_llm_response ("no json here.".toList) false =
      ParseResult.fallback ("no json here.".toList) PErr.noBlock
        ("no json here.".toList) := by
  refine ⟨rfl, by decide, ?_⟩
  exact (claim_C2 ("no json here.".toList) rfl (by decide) (by decide)).2

/-- C6: when the text contains `{`, `}`, `[` and `]`, extraction takes
the object span from the first `{` to the last `}` unless the first `[`
occurs strictly before the first `{`, in which case it takes the array
span from the first `[` to the last `]`. -/
theorem claim_C6 (t : Str) (i e j f : Nat)
    (ho : findChar '\x7b' t = some i) (he : rfindChar '\x7d' t = some e)
    (ha : findChar '[' t = some j) (hf : rfindChar ']' t = some f) :
    extract_json_block t =
      Except.ok (if j < i then pySlice j (f + 1) t else pySlice i (e + 1) t) := by
  unfold extract_json_block arrBranch
  rw [ho, he, ha, hf]
  by_cases hj : j < i
  · have hij : ¬ i < j := by omega
    simp [hij, hj]
  · have hne : i ≠ j := by
      intro hh
      have g1 := findChar_getElem ho
      have g2 := findChar_getElem ha
      rw [hh] at g1
      rw [g1] at g2
      simp at g2
    have hij : i < j := by omega
    simp [hij, hj]

theorem claim_C6_witness :
    extract_json_block ("[1,2] \x7b\"a\":1\x7d".toList) = Except.ok ("[1,2]".toList) := by
  have h := claim_C6 ("[1,2] \x7b\"a\":1\x7d".toList) 6 12 0 4 rfl rfl rfl rfl
  exact h

/-- C8: in non-strict mode the call is total: every internal failure
(extraction `ValueError`s and decode errors alike) is caught by the
ladder, and the result is either a parsed value or the fallback record
carrying the original raw text — never a raised error. -/
theorem claim_C8 (raw : Str) :
    (∃ v, parse_llm_response raw false = ParseResult.ok v) ∨
    (∃ e c, parse_llm_response raw false = ParseResult.fallback raw e c) := by
  cases h1 : jsonLoads raw with
  | some v => exact Or.inl ⟨v, by simp only [parse_llm_response, h1]⟩
  | none =>
    cases h2 : extract_json_block (remove_markdown_fences raw) with
    | error e =>
      refine Or.inr ⟨e, remove_markdown_fences raw, ?_⟩
      simp only [parse_llm_response, h1, h2, if_neg Bool.false_ne_true]
    | ok b =>
      cases h3 : jsonLoads b with
      | some v => exact Or.inl ⟨v, by simp only [parse_llm_response, h1, h2, h3]⟩
      | none =>
        cases h4 : jsonLoads (aggressive_clean b) with
        | some v =>
          exact Or.inl ⟨v, by simp only [parse_llm_response, h1, h2, h3, h4]⟩
        | none =>
          cases h5 : jsonLoads (fix_unescaped_quotes (aggressive_clean b)) with
          | some v =>
            exact Or.inl ⟨v, by simp only [parse_llm_response, h1, h2, h3, h4, h5]⟩
          | none =>
            refine Or.inr ⟨PErr.decodeError, fix_unescaped_quotes (aggressive_clean b), ?_⟩
            simp only [parse_llm_response, h1, h2, h3, h4, h5, if_neg Bool.false_ne_true]

/-- C9: when the text contains a `{` but no `}` while containing a `[`
with a `]` after it, extraction does not fail but returns the span from
the first `[` to the last `]`; consequently the unclosed-object input
with a well-formed inner array parses to the array value (an ordered
sequence, not a mapping). -/
theorem claim_C9 :
    (∀ (t : Str) (i e : Nat), '\x7b' ∈ t → '\x7d' ∉ t → findChar '[' t = some i →
      rfindChar ']' t = some e → i < e →
      extract_json_block t = Except.ok (pySlice i (e + 1) t)) ∧
    (∀ strict : Bool, parse_llm_response ("\x7b\"a\": [1,2]".toList) strict =
      ParseResult.ok (Json.arr [Json.num ['1'], Json.num ['2']])) := by
  constructor
  · intro t i e _ hno hi he _
    have hrno : rfindChar '\x7d' t = none := rfindChar_eq_none hno
    unfold extract_json_block arrBranch
    rw [hrno, hi, he]
    cases hfo : findChar '\x7b' t <;> rfl
  · intro strict
    cases strict <;> rfl

theorem claim_C9_witness :
    extract_json_block ("\x7b\"a\": [1,2]".toList) = Except.ok ("[1,2]".toList) := by
  have h := claim_C9.1 ("\x7b\"a\": [1,2]".toList) 6 10 (by decide) (by decide) rfl rfl
    (by decide)
  exact h

theorem removeLineComments_id : ∀ l : Str,
    hasDblSlash l = false → removeLineComments l = l := by
  intro l
  refine removeLineComments.induct
    (fun l => hasDblSlash l = false → removeLineComments l = l)
    (fun _ => True) ?_ ?_ ?_ ?_ ?_ ?_ l
  · intro _; rfl
  · intro rest2 _ h
    rw [hasDblSlash.eq_1] at h
    cases h
  · intro c rest hne ih h
    rw [hasDblSlash.eq_2 c rest hne] at h
    rw [removeLineComments.eq_3 c rest hne, ih h]
  · trivial
  · intro rest _; trivial
  · intro head rest _ _; trivial

theorem removeBlockComments_id : ∀ l : Str,
    hasSlashStar l = false → removeBlockComments l = l := by
  intro l
  refine removeBlockComments.induct
    (fun l => hasSlashStar l = false → removeBlockComments l = l)
    (fun _ => True) ?_ ?_ ?_ ?_ ?_ ?_ ?_ l
  · intro _; rfl
  · intro rest2 _ _ h
    rw [hasSlashStar.eq_1] at h
    cases h
  · intro rest2 _ _ h
    rw [hasSlashStar.eq_1] at h
    cases h
  · intro c rest hne ih h
    rw [hasSlashStar.eq_2 c rest hne] at h
    rw [removeBlockComments.eq_3 c rest hne, ih h]
  · intro tail _; trivial
  · intro head rest _ _; trivial
  · trivial

theorem commaPass_id : ∀ l : Str,
    hasCommaTrigger l = false → removeTrailingCommas l = l := by
  intro l
  refine hasCommaTrigger.induct
    (fun l => hasCommaTrigger l = false → removeTrailingCommas l = l)
    (fun t => commaTriggerPending t = false →
      ∀ acc : Str, commaPending acc t = ',' :: (acc.reverse ++ t))
    ?_ ?_ ?_ ?_ ?_ ?_ ?_ ?_ l
  · intro _; rfl
  · intro xs ih h
    have h2 : commaTriggerPending xs = false := by
      simpa [hasCommaTrigger] using h
    simp only [removeTrailingCommas, if_pos rfl, ih h2 []]
    simp
  · intro x xs hx ih h
    have h2 : hasCommaTrigger xs = false := by
      simpa [hasCommaTrigger, if_neg hx] using h
    simp only [removeTrailingCommas, if_neg hx, ih h2]
  · intro _ acc
    simp [commaPending]
  · intro x xs hws ih h acc
    have h2 : commaTriggerPending xs = false := by
      simpa [commaTriggerPending, hws] using h
    simp only [commaPending, if_pos hws, ih h2 (x :: acc)]
    simp
  · intro x xs hws hbr h acc
    exfalso
    simp [commaTriggerPending, hws, hbr] at h
  · intro xs hws hbr ih h acc
    have h2 : commaTriggerPending xs = false := by
      simpa [commaTriggerPending, hws, hbr] using h
    simp only [commaPending, if_neg hws, if_neg hbr, if_pos rfl, ih h2 []]
    simp
  · intro x xs hws hbr hxc ih h acc
    have h2 : hasCommaTrigger xs = false := by
      simpa [commaTriggerPending, hws, hbr, hxc] using h
    simp only [commaPending, if_neg hws, if_neg hbr, if_neg hxc, ih h2]

theorem subTrue_id : ∀ (prev : Option Char) (l : Str),
    hasTrueTok prev l = false → subTrue prev l = l := by
  intro prev l
  refine subTrue.induct (fun prev l => hasTrueTok prev l = false → subTrue prev l = l)
    ?_ ?_ ?_ ?_ prev l
  · intro p rest2 hb _ h
    rw [hasTrueTok.eq_1, hb] at h
    simp at h
  · intro p rest2 hb ih h
    rw [hasTrueTok.eq_1] at h
    have h2 := (Bool.or_eq_false_iff.mp h).2
    rw [subTrue.eq_1, if_neg hb, ih h2]
  · intro p c rest hne ih h
    rw [hasTrueTok.eq_2 p c rest hne] at h
    rw [subTrue.eq_2 p c rest hne, ih h]
  · intro _ _; rfl

theorem subFalse_id : ∀ (prev : Option Char) (l : Str),
    hasFalseTok prev l = false → subFalse prev l = l := by
  intro prev l
  refine subFalse.induct (fun prev l => hasFalseTok prev l = false → subFalse prev l = l)
    ?_ ?_ ?_ ?_ prev l
  · intro p rest2 hb _ h
    rw [hasFalseTok.eq_1, hb] at h
    simp at h
  · intro p rest2 hb ih h
    rw [hasFalseTok.eq_1] at h
    have h2 := (Bool.or_eq_false_iff.mp h).2
    rw [subFalse.eq_1, if_neg hb, ih h2]
  · intro p c rest hne ih h
    rw [hasFalseTok.eq_2 p c rest hne] at h
    rw [subFalse.eq_2 p c rest hne, ih h]
  · intro _ _; rfl

theorem subNone_id : ∀ (prev : Option Char) (l : Str),
    hasNoneTok prev l = false → subNone prev l = l := by
  intro prev l
  refine subNone.induct (fun prev l => hasNoneTok prev l = false → subNone prev l = l)
    ?_ ?_ ?_ ?_ prev l
  · intro p rest2 hb _ h
    rw [hasNoneTok.eq_1, hb] at h
    simp at h
  · intro p rest2 hb ih h
    rw [hasNoneTok.eq_1] at h
    have h2 := (Bool.or_eq_false_iff.mp h).2
    rw [subNone.eq_1, if_neg hb, ih h2]
  · intro p c rest hne ih h
    rw [hasNoneTok.eq_2 p c rest hne] at h
    rw [subNone.eq_2 p c rest hne, ih h]
  · intro _ _; rfl

/-- C7 amended: `aggressive_clean` is not idempotent in general —
stacked trailing commas are removed one layer per pass (see the
counterexample `,,}`) — but a second pass makes no further change
whenever the first pass's output contains none of the cleanable
patterns: no `//` or `/*`, no comma-whitespace-bracket match, and no
token-boundary `True`/`False`/`None`. -/
theorem claim_C7 (x : Str) (h : cleanablePattern (aggressive_clean x) = false) :
    aggressive_clean (aggressive_clean x) = aggressive_clean x := by
  rw [cleanablePattern, Bool.or_eq_false_iff, Bool.or_eq_false_iff, Bool.or_eq_false_iff,
    Bool.or_eq_false_iff, Bool.or_eq_false_iff] at h
  obtain ⟨⟨⟨⟨⟨h1, h2⟩, h3⟩, h4⟩, h5⟩, h6⟩ := h
  conv_lhs => rw [aggressive_clean]
  rw [removeLineComments_id _ h1, removeBlockComments_id _ h2, commaPass_id _ h3,
    subTrue_id _ _ h4, subFalse_id _ _ h5, subNone_id _ _ h6]

theorem claim_C7_witness :
    cleanablePattern (aggressive_clean ("\x7b\"a\": 1, \"b\": 2,\x7d".toList)) = false ∧
    aggressive_clean (aggressive_clean ("\x7b\"a\": 1, \"b\": 2,\x7d".toList)) =
      aggressive_clean ("\x7b\"a\": 1, \"b\": 2,\x7d".toList) :=
  ⟨rfl, claim_C7 _ rfl⟩

theorem parseValue_backtick : ∀ (f : Nat) (l : Str), parseValue f ('\x60' :: l) = none
  | 0, _ => rfl
  | _ + 1, _ => rfl

theorem skipWs_cons_of_neg {c : Char} {l : Str} (h : isJsonWs c = false) :
    skipWs (c :: l) = c :: l := by
  unfold skipWs
  rw [List.dropWhile_cons_of_neg]
  simp [h]

theorem jsonLoads_wrap (s : Str) :
    jsonLoads (("```json\n".toList) ++ s ++ ("\n```".toList)) = none := by
  have h0 : ("```json\n".toList) ++ s ++ ("\n```".toList) =
      '\x60' :: (("``json\n".toList) ++ s ++ ("\n```".toList)) := rfl
  unfold jsonLoads
  rw [h0, skipWs_cons_of_neg (by rfl), parseValue_backtick]

theorem lstripWs_eq_self {l : Str} {a : Char} (ha : l.head? = some a)
    (hna : isPySpace a = false) : lstripWs l = l := by
  rcases l with _ | ⟨c, t⟩
  · rfl
  · simp only [List.head?_cons, Option.some.injEq] at ha
    subst ha
    unfold lstripWs
    rw [List.dropWhile_cons_of_neg]
    simp [hna]

theorem rstripWs_eq_self {l : Str} {b : Char} (hb : l.getLast? = some b)
    (hnb : isPySpace b = false) : rstripWs l = l := by
  have hrev : l.reverse.head? = some b := by
    rw [List.head?_reverse]; exact hb
  have h1 : List.dropWhile isPySpace l.reverse = l.reverse :=
    lstripWs_eq_self hrev hnb
  unfold rstripWs
  rw [h1, List.reverse_reverse]

theorem pyStrip_eq_self {l : Str} {a b : Char} (ha : l.head? = some a)
    (hna : isPySpace a = false) (hb : l.getLast? = some b)
    (hnb : isPySpace b = false) : pyStrip l = l := by
  unfold pyStrip
  rw [lstripWs_eq_self ha hna, rstripWs_eq_self hb hnb]

theorem rmf_wrap {s : Str} {a b : Char} (ha : s.head? = some a)
    (hna : isPySpace a = false) (hb : s.getLast? = some b)
    (hnb : isPySpace b = false) :
    remove_markdown_fences (("```json\n".toList) ++ s ++ ("\n```".toList)) = s := by
  obtain ⟨s₂, rfl⟩ : ∃ s₂, s = a :: s₂ := by
    rcases s with _ | ⟨c, t⟩
    · cases ha
    · simp only [List.head?_cons, Option.some.injEq] at ha
      exact ⟨t, by rw [ha]⟩
  have hlastW : ((("```json\n".toList) ++ (a :: s₂)) ++ ("\n```".toList)).getLast? =
      some '\x60' := by
    rw [List.getLast?_append]
    rfl
  have hps : pyStrip (("```json\n".toList) ++ (a :: s₂) ++ ("\n```".toList)) =
      ("```json\n".toList) ++ (a :: s₂) ++ ("\n```".toList) :=
    pyStrip_eq_self rfl (by rfl) hlastW (by rfl)
  have hpre : ("```json".toList).isPrefixOf
      (("```json\n".toList) ++ (a :: s₂) ++ ("\n```".toList)) = true := rfl
  have hdrop : (("```json\n".toList) ++ (a :: s₂) ++ ("\n```".toList)).drop 7 =
      '\n' :: ((a :: s₂) ++ ("\n```".toList)) := rfl
  have hlstrip : lstripWs ('\n' :: ((a :: s₂) ++ ("\n```".toList))) =
      (a :: s₂) ++ ("\n```".toList) := by
    unfold lstripWs
    rw [List.dropWhile_cons_of_pos (by rfl)]
    exact lstripWs_eq_self (by rfl) hna
  have hsuf : ("```".toList).isSuffixOf ((a :: s₂) ++ ("\n```".toList)) = true := by
    unfold List.isSuffixOf
    rw [List.reverse_append]
    rfl
  have hlen : ((a :: s₂) ++ ("\n```".toList)).length - 3 = (a :: s₂).length + 1 := by
    simp [List.length_append]
  have hdr : dropRight3 ((a :: s₂) ++ ("\n```".toList)) = (a :: s₂) ++ ['\n'] := by
    unfold dropRight3
    rw [hlen, List.take_append]
    rfl
  have hrstrip : rstripWs ((a :: s₂) ++ ['\n']) = a :: s₂ := by
    have h1 : (a :: s₂).reverse.head? = some b := by
      rw [List.head?_reverse]; exact hb
    have h2 : List.dropWhile isPySpace ((a :: s₂).reverse) = (a :: s₂).reverse :=
      lstripWs_eq_self h1 hnb
    unfold rstripWs
    rw [List.reverse_append]
    have h3 : (['\n'] : Str).reverse ++ (a :: s₂).reverse =
        '\n' :: (a :: s₂).reverse := rfl
    rw [h3, List.dropWhile_cons_of_pos (by rfl), h2, List.reverse_reverse]
  simp only [remove_markdown_fences]
  rw [hps, if_pos hpre, hdrop, hlstrip, if_pos hsuf, hdr, hrstrip]
  exact pyStrip_eq_self rfl hna hb hnb

theorem pySlice_full {l : Str} (h : l ≠ []) : pySlice 0 (l.length - 1 + 1) l = l := by
  unfold pySlice
  rw [List.drop_zero]
  have h2 : l.length - 1 + 1 - 0 = l.length := by
    have h3 := List.length_pos.mpr h
    omega
  rw [h2, List.take_length]

theorem getLast?_to_reverse_cons {l : Str} {b : Char} (hb : l.getLast? = some b) :
    ∃ r, l.reverse = b :: r := by
  have hrev : l.reverse.head? = some b := by
    rw [List.head?_reverse]; exact hb
  rcases hrl : l.reverse with _ | ⟨x, r⟩
  · rw [hrl] at hrev; cases hrev
  · rw [hrl] at hrev
    simp only [List.head?_cons, Option.some.injEq] at hrev
    exact ⟨r, by rw [hrev]⟩

theorem extract_obj_self {s₂ : Str}
    (hb : ('\x7b' :: s₂).getLast? = some '\x7d') :
    extract_json_block ('\x7b' :: s₂) = Except.ok ('\x7b' :: s₂) := by
  have hso : findChar '\x7b' ('\x7b' :: s₂) = some 0 := by simp [findChar]
  obtain ⟨r, hr⟩ := getLast?_to_reverse_cons hb
  have heo : rfindChar '\x7d' ('\x7b' :: s₂) = some (('\x7b' :: s₂).length - 1) := by
    unfold rfindChar
    rw [hr]
    simp [findChar]
  unfold extract_json_block
  rw [hso, heo]
  cases hsa : findChar '[' ('\x7b' :: s₂) with
  | none =>
    exact congrArg Except.ok (pySlice_full (by simp))
  | some k =>
    have hk : k ≠ 0 := by
      intro hk0
      have hg := findChar_getElem hsa
      rw [hk0] at hg
      simp at hg
    have hkpos : (0 : Nat) < k := Nat.pos_of_ne_zero hk
    have hslice : pySlice 0 (s₂.length + 1) ('\x7b' :: s₂) = '\x7b' :: s₂ := by
      unfold pySlice
      rw [List.drop_zero]
      have h2 : s₂.length + 1 - 0 = ('\x7b' :: s₂).length := by simp
      rw [h2, List.take_length]
    simp [hkpos, hslice]

theorem extract_arr_self {s₂ : Str}
    (hb : ('[' :: s₂).getLast? = some ']') :
    extract_json_block ('[' :: s₂) = Except.ok ('[' :: s₂) := by
  have hsa : findChar '[' ('[' :: s₂) = some 0 := by simp [findChar]
  obtain ⟨r, hr⟩ := getLast?_to_reverse_cons hb
  have hea : rfindChar ']' ('[' :: s₂) = some (('[' :: s₂).length - 1) := by
    unfold rfindChar
    rw [hr]
    simp [findChar]
  unfold extract_json_block arrBranch
  rw [hsa, hea]
  cases hso : findChar '\x7b' ('[' :: s₂) with
  | none =>
    exact congrArg Except.ok (pySlice_full (by simp))
  | some k =>
    cases heo : rfindChar '\x7d' ('[' :: s₂) with
    | none =>
      exact congrArg Except.ok (pySlice_full (by simp))
    | some m =>
      have hslice : pySlice 0 (s₂.length + 1) ('[' :: s₂) = '[' :: s₂ := by
        unfold pySlice
        rw [List.drop_zero]
        have h2 : s₂.length + 1 - 0 = ('[' :: s₂).length := by simp
        rw [h2, List.take_length]
      simp [hslice]

/-- C5 amended: wrapping in a markdown fence preserves the parse for
valid JSON whose text is exactly an object or array literal (first and
last characters are the matching brackets); bare scalar JSON such as
`42` is excluded, as the counterexample shows that its fenced wrapping
fails block extraction and changes the result. -/
theorem claim_C5 (s : Str) (v : Json) (strict : Bool)
    (hv : jsonLoads s = some v)
    (hshape : (s.head? = some '\x7b' ∧ s.getLast? = some '\x7d') ∨
      (s.head? = some '[' ∧ s.getLast? = some ']')) :
    parse_llm_response (("```json\n".toList) ++ s ++ ("\n```".toList)) strict =
      parse_llm_response s strict := by
  have hwrap := jsonLoads_wrap s
  rcases hshape with ⟨hh, hl⟩ | ⟨hh, hl⟩
  · have hrmf := rmf_wrap hh (by rfl) hl (by rfl)
    obtain ⟨s₂, rfl⟩ : ∃ s₂, s = '\x7b' :: s₂ := by
      rcases s with _ | ⟨c, t⟩
      · cases hh
      · simp only [List.head?_cons, Option.some.injEq] at hh
        exact ⟨t, by rw [hh]⟩
    have hex := extract_obj_self hl
    rw [parse_of_loads strict hv]
    simp only [parse_llm_response, hwrap, hrmf, hex, hv]
  · have hrmf := rmf_wrap hh (by rfl) hl (by rfl)
    obtain ⟨s₂, rfl⟩ : ∃ s₂, s = '[' :: s₂ := by
      rcases s with _ | ⟨c, t⟩
      · cases hh
      · simp only [List.head?_cons, Option.some.injEq] at hh
        exact ⟨t, by rw [hh]⟩
    have hex := extract_arr_self hl
    rw [parse_of_loads strict hv]
    simp only [parse_llm_response, hwrap, hrmf, hex, hv]

theorem claim_C5_witness :
    jsonLoads ("\x7b\"a\": 1\x7d".toList) = some (Json.obj [([97], Json.num ['1'])]) ∧
    parse_llm_response
        (("```json\n".toList) ++ ("\x7b\"a\": 1\x7d".toList) ++ ("\n```".toList)) true =
      parse_llm_response ("\x7b\"a\": 1\x7d".toList) true :=
  ⟨rfl, claim_C5 _ _ true rfl (Or.inl ⟨rfl, rfl⟩)⟩
